import Mathlib

set_option maxHeartbeats 1000000

namespace DocxRefit

/-- Characters of a Python string. -/
abbrev Str := List Char

/-- ASCII lowercasing of one character (models Python str.lower on the ASCII
names handled here). -/
def lowChar (c : Char) : Char :=
  if 65 ≤ c.toNat ∧ c.toNat ≤ 90 then Char.ofNat (c.toNat + 32) else c

/-- Python str.lower. -/
def lowerStr (s : Str) : Str := s.map lowChar

/-- Python str.endswith. -/
def strEndsWith (s suff : Str) : Bool := decide (List.IsSuffix suff s)

/-- pathlib.Path(name).name: the final path component, i.e. everything after
the last slash. -/
def baseName (s : Str) : Str := (s.reverse.takeWhile fun c => c != '/').reverse

/-- zipfile.ZipInfo.is_dir: the stored member filename ends with a slash. -/
def isDirName (s : Str) : Bool :=
  match s.getLast? with
  | some c => c == '/'
  | none => false

/-- pathlib.Path(name).stem: the final component without its extension
(the extension starts at the last dot, provided that dot is neither the first
nor the last character of the component). -/
def stem (name : Str) : Str :=
  let b := baseName name
  match b.reverse.findIdx? (fun c => c == '.') with
  | some j =>
      let i := b.length - 1 - j
      if 0 < i ∧ i < b.length - 1 then b.take i else b
  | none => b

/-- A text run: its text and an abstract formatting payload (0 marks a plain
run as created by add_run or the paragraph text setter, 1 marks the PAGE-field
run built in set_header_footer). -/
structure Run where
  text : Str
  fmt : Nat
deriving DecidableEq

/-- A paragraph of a document: its style name and its runs. -/
structure Paragraph where
  style : Str
  runs : List Run
deriving DecidableEq

/-- WD_ORIENT. -/
inductive Orient where
  | portrait : Orient
  | landscape : Orient
deriving DecidableEq

/-- A document section: page geometry (in EMU), margins, and the header and
footer paragraph lists. -/
structure DocSection where
  orientation : Orient
  page_width : Int
  page_height : Int
  top_margin : Int
  bottom_margin : Int
  left_margin : Int
  right_margin : Int
  header : List Paragraph
  footer : List Paragraph
deriving DecidableEq

/-- The document object model, at the granularity the processor touches:
sections, body paragraphs, and the set of available style names. -/
structure Docx where
  sections : List DocSection
  paragraphs : List Paragraph
  styles : List Str
deriving DecidableEq

/-- A byte blob as the app sees one: bytes that the docx library loads as a
document (`docxBlob (some d)`), bytes on which document loading raises
(`docxBlob none`), or a well-formed zip archive listing its
(member filename, member bytes) pairs in archive order (`zipBlob`). -/
inductive Blob where
  | docxBlob : Option Docx → Blob
  | zipBlob : List (Str × Blob) → Blob

/-- docx.shared.Mm: millimetres to EMU. -/
def Mm (v : Int) : Int := v * 36000

/-- The margins_mm sub-dictionary of the page_setup config. -/
structure MarginsCfg where
  top : Option Int
  bottom : Option Int
  left : Option Int
  right : Option Int
deriving DecidableEq

/-- The page_setup config dictionary. -/
structure PageSetupCfg where
  orientation : Option Str
  margins_mm : MarginsCfg
deriving DecidableEq

/-- The header_footer config dictionary. -/
structure HeaderFooterCfg where
  header_text : Option Str
  footer_text : Option Str
  include_page_numbers : Bool
deriving DecidableEq

/-- One find_replace rule: rule.get("pattern") and rule.get("replace", ""). -/
structure Rule where
  pattern : Option Str
  replace : Str
deriving DecidableEq

/-- A top-level YAML config key: absent, present with the wrong type, or
present with a well-typed value. -/
inductive CfgField (α : Type) where
  | absent : CfgField α
  | wrongType : CfgField α
  | val : α → CfgField α
deriving DecidableEq

/-- True exactly when the key is present with the expected type, i.e. when the
source's `"k" in cfg and isinstance(cfg["k"], T)` guard passes. -/
def CfgField.isVal : CfgField α → Bool
  | CfgField.val _ => true
  | _ => false

/-- The YAML config as process_one consumes it. -/
structure Cfg where
  page_setup : CfgField PageSetupCfg
  header_footer : CfgField HeaderFooterCfg
  style_map : CfgField (List (Str × Str))
  find_replace : CfgField (List Rule)

/-- python-docx paragraph.text: the concatenation of the run texts. -/
def pText (p : Paragraph) : Str := (p.runs.map Run.text).flatten

/-- The loop body of apply_page_setup on one section: on a (lowercased)
"landscape" orientation set landscape and swap width and height, otherwise set
portrait; then set each margin side present in margins_mm. -/
def pageSetupSection (cfg : PageSetupCfg) (s : DocSection) : DocSection :=
  let orientation := lowerStr (cfg.orientation.getD "portrait".data)
  let s1 :=
    if orientation = "landscape".data then
      { s with orientation := Orient.landscape,
               page_width := s.page_height, page_height := s.page_width }
    else
      { s with orientation := Orient.portrait }
  let s2 := match cfg.margins_mm.top with
    | some v => { s1 with top_margin := Mm v }
    | none => s1
  let s3 := match cfg.margins_mm.bottom with
    | some v => { s2 with bottom_margin := Mm v }
    | none => s2
  let s4 := match cfg.margins_mm.left with
    | some v => { s3 with left_margin := Mm v }
    | none => s3
  match cfg.margins_mm.right with
    | some v => { s4 with right_margin := Mm v }
    | none => s4

/-- apply_page_setup's per-document body: the section loop. -/
def applyPageSetupDoc (cfg : PageSetupCfg) (d : Docx) : Docx :=
  { d with sections := d.sections.map (pageSetupSection cfg) }

/-- apply_style_mappings' per-document body: remap each body paragraph whose
style name is a key of the mapping, skipping the paragraph when the target
style does not exist (the KeyError is swallowed by the try/except). -/
def applyStyleMappingsDoc (mapping : List (Str × Str)) (d : Docx) : Docx :=
  { d with paragraphs := d.paragraphs.map fun p =>
      match mapping.lookup p.style with
      | some tgt => if d.styles.contains tgt then { p with style := tgt } else p
      | none => p }

/-- replace_in_paragraph: join the run texts, run the substitution, and on a
change replace all runs by one plain run holding the new text.  In the model a
paragraph's text is exactly the concatenation of its run texts, so the
`or p.text` fallback of the source collapses.  The regex engine is the
external `re` module; the model takes the substitution function `reSub`
(pattern, replacement, text) as a parameter. -/
def replace_in_paragraph (reSub : Str → Str → Str → Str) (p : Paragraph)
    (pat repl : Str) : Paragraph :=
  let text := pText p
  let new_text := reSub pat repl text
  if new_text ≠ text then { p with runs := [{ text := new_text, fmt := 0 }] } else p

/-- One iteration of the rule loop: apply a rule when its pattern is a truthy
value (`if pattern:`). -/
def applyRule (reSub : Str → Str → Str → Str) (p : Paragraph) (r : Rule) : Paragraph :=
  match r.pattern with
  | some pat => if pat ≠ [] then replace_in_paragraph reSub p pat r.replace else p
  | none => p

/-- The full rule list applied to one paragraph, in rule order. -/
def replaceRules (reSub : Str → Str → Str → Str) (rules : List Rule)
    (p : Paragraph) : Paragraph :=
  rules.foldl (applyRule reSub) p

/-- apply_find_replace's per-document body: every body paragraph and every
section header/footer paragraph gets the rule list applied. -/
def applyFindReplaceDoc (reSub : Str → Str → Str → Str) (rules : List Rule)
    (d : Docx) : Docx :=
  { d with
    paragraphs := d.paragraphs.map (replaceRules reSub rules),
    sections := d.sections.map fun s =>
      { s with header := s.header.map (replaceRules reSub rules),
               footer := s.footer.map (replaceRules reSub rules) } }

/-- python-docx add_paragraph(""): a Normal-styled paragraph with no runs. -/
def emptyParagraph : Paragraph := { style := "Normal".data, runs := [] }

/-- The python-docx paragraph text setter: all runs replaced by one plain run. -/
def setParaText (p : Paragraph) (t : Str) : Paragraph :=
  { p with runs := [{ text := t, fmt := 0 }] }

/-- The PAGE-field run built in set_header_footer: its visible text is the
placeholder "1" and its payload marks the field children. -/
def pageFieldRun : Run := { text := "1".data, fmt := 1 }

/-- The loop body of set_header_footer on one section. -/
def headerFooterSection (cfg : HeaderFooterCfg) (s : DocSection) : DocSection :=
  let s1 :=
        match cfg.header_text with
        | some ht =>
            let hdr := if s.header.isEmpty then [emptyParagraph] else s.header
            match hdr with
            | [] => s
            | p0 :: rest => { s with header := setParaText p0 ht :: rest }
        | none => s
      if cfg.footer_text.isSome || cfg.include_page_numbers then
        let pr :=
          match s1.footer with
          | [] => (emptyParagraph, ([] : List Paragraph))
          | q :: qs => (q, qs)
        let parts0 : List Str :=
          match cfg.footer_text with
          | some ft => if ft ≠ [] then [ft] else []
          | none => []
        let pp :=
          if cfg.include_page_numbers then
            ({ pr.1 with runs := pr.1.runs ++ [pageFieldRun] },
             parts0 ++ (if parts0 ≠ [] then [" — ".data] else []) ++ ["Page ".data])
          else (pr.1, parts0)
        let p2 :=
          if pp.2 ≠ [] then
            (if pText pp.1 ≠ [] then setParaText pp.1 (pp.2.flatten ++ pText pp.1)
             else setParaText pp.1 pp.2.flatten)
          else pp.1
        { s1 with footer := p2 :: pr.2 }
      else s1

/-- set_header_footer's per-document body: the section loop. -/
def setHeaderFooterDoc (cfg : HeaderFooterCfg) (d : Docx) : Docx :=
  { d with sections := d.sections.map (headerFooterSection cfg) }

/-- Document(io.BytesIO(b)): load bytes as a document, or raise. -/
def loadDocx : Blob → Except String Docx
  | Blob.docxBlob (some d) => Except.ok d
  | _ => Except.error "PackageNotFoundError"

/-- _doc_to_bytes: serialise a document back to bytes; in the model the
save/load round trip of the library is exact. -/
def doc_to_bytes (d : Docx) : Blob := Blob.docxBlob (some d)

/-- Modelled from the spec: the composition merge itself lives in the external
docxcompose library ("composes its full content into the template ...
preserving images, tables, lists").  The model appends the legacy body
paragraphs after the template body, keeps the template's sections, and imports
source style names not already present. -/
def composerAppend (base src : Docx) : Docx :=
  { base with
    paragraphs := base.paragraphs ++ src.paragraphs,
    styles := base.styles ++ src.styles.filter (fun n => !(base.styles.contains n)) }

/-- compose_into_template: load the template, load the source document, append
the source into the template, and save. -/
def compose_into_template (src_docx_bytes template_docx_bytes : Blob) :
    Except String Blob :=
  match loadDocx template_docx_bytes with
  | Except.error e => Except.error e
  | Except.ok base =>
      match loadDocx src_docx_bytes with
      | Except.error e => Except.error e
      | Except.ok src => Except.ok (doc_to_bytes (composerAppend base src))

/-- apply_style_mappings at the byte level. -/
def apply_style_mappings (docx_bytes : Blob) (mapping : List (Str × Str)) :
    Except String Blob :=
  match loadDocx docx_bytes with
  | Except.error e => Except.error e
  | Except.ok d => Except.ok (doc_to_bytes (applyStyleMappingsDoc mapping d))

/-- apply_find_replace at the byte level. -/
def apply_find_replace (reSub : Str → Str → Str → Str) (docx_bytes : Blob)
    (rules : List Rule) : Except String Blob :=
  match loadDocx docx_bytes with
  | Except.error e => Except.error e
  | Except.ok d => Except.ok (doc_to_bytes (applyFindReplaceDoc reSub rules d))

/-- set_header_footer at the byte level. -/
def set_header_footer (docx_bytes : Blob) (cfg : HeaderFooterCfg) :
    Except String Blob :=
  match loadDocx docx_bytes with
  | Except.error e => Except.error e
  | Except.ok d => Except.ok (doc_to_bytes (setHeaderFooterDoc cfg d))

/-- apply_page_setup at the byte level. -/
def apply_page_setup (docx_bytes : Blob) (cfg : PageSetupCfg) :
    Except String Blob :=
  match loadDocx docx_bytes with
  | Except.error e => Except.error e
  | Except.ok d => Except.ok (doc_to_bytes (applyPageSetupDoc cfg d))

/-- The document build_default_template constructs. -/
def defaultTemplateDoc : Docx :=
    { sections :=
        [{ orientation := Orient.portrait,
           page_width := Mm 210, page_height := Mm 297,
           top_margin := Mm 20, bottom_margin := Mm 20,
           left_margin := Mm 25, right_margin := Mm 15,
           header := [{ style := "Normal".data, runs := [{ text := "New Layout".data, fmt := 0 }] }],
           footer := [{ style := "Normal".data, runs := [{ text := "Confidential".data, fmt := 0 }] }] }],
      paragraphs := [],
      styles := ["Normal".data, "Heading 1".data, "Heading 2".data, "Heading 3".data, "Title".data] }

/-- build_default_template: the bundled clean template, as bytes. -/
def build_default_template : Blob := doc_to_bytes defaultTemplateDoc

/-- The guarded line `if "page_setup" in cfg and isinstance(cfg["page_setup"], dict):
composed = apply_page_setup(composed, cfg["page_setup"])`. -/
def pageSetupStep (cfg : Cfg) (b : Blob) : Except String Blob :=
  match cfg.page_setup with
  | CfgField.val ps => apply_page_setup b ps
  | _ => Except.ok b

/-- The guarded line running set_header_footer. -/
def headerFooterStep (cfg : Cfg) (b : Blob) : Except String Blob :=
  match cfg.header_footer with
  | CfgField.val hf => set_header_footer b hf
  | _ => Except.ok b

/-- The guarded line running apply_style_mappings. -/
def styleMapStep (cfg : Cfg) (b : Blob) : Except String Blob :=
  match cfg.style_map with
  | CfgField.val m => apply_style_mappings b m
  | _ => Except.ok b

/-- The guarded line running apply_find_replace. -/
def findReplaceStep (reSub : Str → Str → Str → Str) (cfg : Cfg) (b : Blob) :
    Except String Blob :=
  match cfg.find_replace with
  | CfgField.val rs => apply_find_replace reSub b rs
  | _ => Except.ok b

/-- process_one: compose the legacy bytes into the template, then run each
optional step whose config key is present with the right type, each step
consuming the previous step's bytes; any raise propagates to the caller. -/
def process_one (reSub : Str → Str → Str → Str) (name : Str) (data tpl_bytes : Blob)
    (cfg : Cfg) : Except String Blob :=
  match compose_into_template data tpl_bytes with
  | Except.error e => Except.error e
  | Except.ok c0 =>
    match pageSetupStep cfg c0 with
    | Except.error e => Except.error e
    | Except.ok c1 =>
      match headerFooterStep cfg c1 with
      | Except.error e => Except.error e
      | Except.ok c2 =>
        match styleMapStep cfg c2 with
        | Except.error e => Except.error e
        | Except.ok c3 => findReplaceStep reSub cfg c3

/-- One uploaded item: its filename and its bytes. -/
structure Upload where
  name : Str
  data : Blob

/-- iter_input_docs: expand the uploaded items, in order, into the
(filename, bytes) pairs to process: a .docx upload contributes itself, a .zip
upload contributes its non-directory .docx members (path stripped to the base
name) in archive order, anything else contributes nothing; .zip-named bytes
that are not a zip archive make zipfile.ZipFile raise, which aborts the
whole expansion. -/
def iter_input_docs : List Upload → Except String (List (Str × Blob))
  | [] => Except.ok []
  | item :: rest =>
      let nameL := lowerStr item.name
      if strEndsWith nameL ".docx".data then
        match iter_input_docs rest with
        | Except.error e => Except.error e
        | Except.ok r => Except.ok ((item.name, item.data) :: r)
      else if strEndsWith nameL ".zip".data then
        match item.data with
        | Blob.zipBlob members =>
            let docs := members.filterMap fun m =>
              if !(isDirName m.1) && strEndsWith (lowerStr m.1) ".docx".data then
                some (baseName m.1, m.2)
              else none
            match iter_input_docs rest with
            | Except.error e => Except.error e
            | Except.ok r => Except.ok (docs ++ r)
        | _ => Except.error "BadZipFile"
      else iter_input_docs rest

/-- An entry of the output archive: a refitted document or an error marker. -/
inductive OutEntry where
  | refit : Blob → OutEntry
  | errMark : Str → OutEntry

/-- The run_btn loop: process each (name, bytes) pair in order; on success
write `<stem>_refit.docx` with the output bytes, on a raise write
`<stem>__ERROR.txt` with a message, and continue with the rest. -/
def runBatch (reSub : Str → Str → Str → Str) (docs : List (Str × Blob))
    (tpl_bytes : Blob) (cfg : Cfg) : List (Str × OutEntry) :=
  match docs with
  | [] => []
  | (name, data) :: rest =>
      (match process_one reSub name data tpl_bytes cfg with
       | Except.ok out => (stem name ++ "_refit.docx".data, OutEntry.refit out)
       | Except.error e =>
           (stem name ++ "__ERROR.txt".data,
            OutEntry.errMark ("Failed to process ".data ++ name ++ ": ".data ++ e.data)))
        :: runBatch reSub rest tpl_bytes cfg

/-- The archive entry the loop body produces for one (name, bytes) pair. -/
def outEntryFor (reSub : Str → Str → Str → Str) (tpl_bytes : Blob) (cfg : Cfg)
    (nd : Str × Blob) : Str × OutEntry :=
  match process_one reSub nd.1 nd.2 tpl_bytes cfg with
  | Except.ok out => (stem nd.1 ++ "_refit.docx".data, OutEntry.refit out)
  | Except.error e =>
      (stem nd.1 ++ "__ERROR.txt".data,
       OutEntry.errMark ("Failed to process ".data ++ nd.1 ++ ": ".data ++ e.data))

/-- What one uploaded item contributes to the expanded input list. -/
def expandOne (u : Upload) : Except String (List (Str × Blob)) :=
  if strEndsWith (lowerStr u.name) ".docx".data then
    Except.ok [(u.name, u.data)]
  else if strEndsWith (lowerStr u.name) ".zip".data then
    match u.data with
    | Blob.zipBlob members =>
        Except.ok (members.filterMap fun m =>
          if !(isDirName m.1) && strEndsWith (lowerStr m.1) ".docx".data then
            some (baseName m.1, m.2)
          else none)
    | _ => Except.error "BadZipFile"
  else Except.ok []

/-- The five kinds of calls process_one makes into the document library. -/
inductive Step where
  | compose : Step
  | pageSetup : Step
  | headerFooter : Step
  | styleMap : Step
  | findReplace : Step
deriving DecidableEq

/-- The library calls process_one makes when no step raises: compose always,
then one call per optional step whose config key is present with the right
type. -/
def stepTag (b : Bool) (s : Step) : List Step := if b then [s] else []

def pipelineSteps (cfg : Cfg) : List Step :=
  Step.compose ::
    (stepTag cfg.page_setup.isVal Step.pageSetup ++
     stepTag cfg.header_footer.isVal Step.headerFooter ++
     stepTag cfg.style_map.isVal Step.styleMap ++
     stepTag cfg.find_replace.isVal Step.findReplace)

/-- process_one instrumented with the list of library calls actually made, in
call order; a raise stops the pipeline, so later calls are not recorded. -/
def process_one_traced (reSub : Str → Str → Str → Str) (data tpl_bytes : Blob)
    (cfg : Cfg) : Except String Blob × List Step :=
  match compose_into_template data tpl_bytes with
  | Except.error e => (Except.error e, [Step.compose])
  | Except.ok c0 =>
    let t1 := stepTag cfg.page_setup.isVal Step.pageSetup
    match pageSetupStep cfg c0 with
    | Except.error e => (Except.error e, Step.compose :: t1)
    | Except.ok c1 =>
      let t2 := stepTag cfg.header_footer.isVal Step.headerFooter
      match headerFooterStep cfg c1 with
      | Except.error e => (Except.error e, Step.compose :: t1 ++ t2)
      | Except.ok c2 =>
        let t3 := stepTag cfg.style_map.isVal Step.styleMap
        match styleMapStep cfg c2 with
        | Except.error e => (Except.error e, Step.compose :: t1 ++ t2 ++ t3)
        | Except.ok c3 =>
          let t4 := stepTag cfg.find_replace.isVal Step.findReplace
          (findReplaceStep reSub cfg c3, Step.compose :: t1 ++ t2 ++ t3 ++ t4)

/-- A concrete regex-substitution instance used in the concrete evaluations:
replace the whole text when it equals the pattern. -/
def litSub (pat repl s : Str) : Str := if s = pat then repl else s

/-- A concrete section used in the concrete evaluations. -/
def sampleSection : DocSection :=
  { orientation := Orient.portrait, page_width := 100, page_height := 200,
    top_margin := 1, bottom_margin := 2, left_margin := 3, right_margin := 4,
    header := [], footer := [] }

/-- A concrete document used in the concrete evaluations. -/
def sampleDoc : Docx :=
  { sections := [sampleSection],
    paragraphs := [{ style := "Normal".data, runs := [{ text := "ab".data, fmt := 7 }] }],
    styles := ["Normal".data] }

/-- Concrete legacy-document bytes. -/
def sampleData : Blob := doc_to_bytes sampleDoc

/-- A concrete page_setup config. -/
def samplePS : PageSetupCfg :=
  { orientation := some "landscape".data,
    margins_mm := { top := some 20, bottom := some 20, left := some 25, right := some 15 } }

/-- A concrete header_footer config. -/
def sampleHF : HeaderFooterCfg :=
  { header_text := some "H".data, footer_text := some "F".data, include_page_numbers := true }

/-- A concrete config with all four optional keys present and well-typed. -/
def fullSampleCfg : Cfg :=
  { page_setup := CfgField.val samplePS,
    header_footer := CfgField.val sampleHF,
    style_map := CfgField.val [("Heading 1".data, "Title".data)],
    find_replace := CfgField.val [{ pattern := some "ab".data, replace := "cd".data }] }

/-- A concrete config whose style_map key is missing and whose find_replace key
is present with a non-list value. -/
def sampleCfgNoText : Cfg :=
  { page_setup := CfgField.val samplePS,
    header_footer := CfgField.absent,
    style_map := CfgField.absent,
    find_replace := CfgField.wrongType }

/-- A page_setup config whose orientation value is "Landscape" (capital L). -/
def capitalLandscapePS : PageSetupCfg :=
  { orientation := some "Landscape".data,
    margins_mm := { top := none, bottom := none, left := none, right := none } }

/-- A concrete find_replace rule list. -/
def sampleRules : List Rule := [{ pattern := some "ab".data, replace := "cd".data }]

/-- A paragraph none of sampleRules changes. -/
def keepPara : Paragraph := { style := "Normal".data, runs := [{ text := "xy".data, fmt := 7 }] }

/-- A paragraph sampleRules does change. -/
def changePara : Paragraph := { style := "Normal".data, runs := [{ text := "ab".data, fmt := 7 }] }

/-- A concrete upload list: a .docx file (uppercase name) and a zip holding a
directory entry, a nested .docx member and a non-docx member. -/
def sampleItems : List Upload :=
  [{ name := "A.DOCX".data, data := sampleData },
   { name := "pack.zip".data,
     data := Blob.zipBlob
       [("docs/".data, Blob.zipBlob []),
        ("docs/Report.Docx".data, sampleData),
        ("docs/notes.txt".data, sampleData)] },
   { name := "skip.png".data, data := Blob.zipBlob [] }]

/-! Helper lemmas shared by the claim theorems. -/

/-- The run_btn loop produces exactly the per-document entries, in order. -/
theorem runBatch_eq_map (reSub : Str → Str → Str → Str) (docs : List (Str × Blob))
    (tpl_bytes : Blob) (cfg : Cfg) :
    runBatch reSub docs tpl_bytes cfg = docs.map (outEntryFor reSub tpl_bytes cfg) := by
  induction docs with
  | nil => rfl
  | cons hd tl ih =>
      cases hd with
      | mk n d =>
          cases hp : process_one reSub n d tpl_bytes cfg with
          | ok out => simp [runBatch, outEntryFor, hp, ih]
          | error e => simp [runBatch, outEntryFor, hp, ih]

/-- When the style_map key is absent or has the wrong type, the style-mapping
line leaves the bytes alone. -/
theorem styleMapStep_skip {cfg : Cfg} (h : cfg.style_map.isVal = false) (b : Blob) :
    styleMapStep cfg b = Except.ok b := by
  cases hs : cfg.style_map with
  | val m => rw [hs] at h; simp [CfgField.isVal] at h
  | absent => simp [styleMapStep, hs]
  | wrongType => simp [styleMapStep, hs]

/-- When the find_replace key is absent or has the wrong type, the find/replace
line leaves the bytes alone. -/
theorem findReplaceStep_skip {cfg : Cfg} (h : cfg.find_replace.isVal = false)
    (reSub : Str → Str → Str → Str) (b : Blob) :
    findReplaceStep reSub cfg b = Except.ok b := by
  cases hs : cfg.find_replace with
  | val rs => rw [hs] at h; simp [CfgField.isVal] at h
  | absent => simp [findReplaceStep, hs]
  | wrongType => simp [findReplaceStep, hs]

/-- C1: for every input document, a fully populated config makes process_one
run compose, then page setup, then header/footer, then style mappings, then
find/replace, in that fixed order, each later step receiving the bytes the
previous step produced (the monadic chain below). -/
theorem c1_fixed_pipeline_order (reSub : Str → Str → Str → Str) (name : Str)
    (data tpl_bytes : Blob) (ps : PageSetupCfg) (hf : HeaderFooterCfg)
    (sm : List (Str × Str)) (rs : List Rule) :
    process_one reSub name data tpl_bytes
        { page_setup := CfgField.val ps, header_footer := CfgField.val hf,
          style_map := CfgField.val sm, find_replace := CfgField.val rs } =
      Except.bind (compose_into_template data tpl_bytes) (fun c0 =>
        Except.bind (apply_page_setup c0 ps) (fun c1 =>
          Except.bind (set_header_footer c1 hf) (fun c2 =>
            Except.bind (apply_style_mappings c2 sm) (fun c3 =>
              apply_find_replace reSub c3 rs)))) := by
  cases h0 : compose_into_template data tpl_bytes with
  | error e => simp [process_one, h0, Except.bind]
  | ok c0 =>
      cases h1 : apply_page_setup c0 ps with
      | error e => simp [process_one, pageSetupStep, h0, h1, Except.bind]
      | ok c1 =>
          cases h2 : set_header_footer c1 hf with
          | error e =>
              simp [process_one, pageSetupStep, headerFooterStep, h0, h1, h2, Except.bind]
          | ok c2 =>
              cases h3 : apply_style_mappings c2 sm with
              | error e =>
                  simp [process_one, pageSetupStep, headerFooterStep, styleMapStep,
                        h0, h1, h2, h3, Except.bind]
              | ok c3 =>
                  simp [process_one, pageSetupStep, headerFooterStep, styleMapStep,
                        findReplaceStep, h0, h1, h2, h3, Except.bind]

/-- C2: the batch loop never aborts: the output archive holds exactly one
entry per input document, in order, and that entry is `<stem>_refit.docx` with
the processed bytes when process_one succeeds and `<stem>__ERROR.txt` when it
raises (outEntryFor is exactly that case split). -/
theorem c2_batch_error_isolation (reSub : Str → Str → Str → Str)
    (docs : List (Str × Blob)) (tpl_bytes : Blob) (cfg : Cfg) :
    runBatch reSub docs tpl_bytes cfg = docs.map (outEntryFor reSub tpl_bytes cfg) ∧
    (runBatch reSub docs tpl_bytes cfg).length = docs.length := by
  refine ⟨runBatch_eq_map reSub docs tpl_bytes cfg, ?_⟩
  rw [runBatch_eq_map reSub docs tpl_bytes cfg]
  exact List.length_map docs (outEntryFor reSub tpl_bytes cfg)

/-- C4: every pipeline step is a stateless transformation: rerunning a step on
the same input bytes and configuration gives the same output, and a batch
splits into independent per-document runs, so processing one document cannot
affect another. -/
theorem c4_stateless_transformations (reSub : Str → Str → Str → Str)
    (docs1 docs2 : List (Str × Blob)) (tpl_bytes : Blob) (cfg : Cfg) (b t : Blob)
    (ps : PageSetupCfg) (hf : HeaderFooterCfg) (sm : List (Str × Str)) (rs : List Rule) :
    runBatch reSub (docs1 ++ docs2) tpl_bytes cfg =
        runBatch reSub docs1 tpl_bytes cfg ++ runBatch reSub docs2 tpl_bytes cfg ∧
    compose_into_template b t = compose_into_template b t ∧
    apply_page_setup b ps = apply_page_setup b ps ∧
    set_header_footer b hf = set_header_footer b hf ∧
    apply_style_mappings b sm = apply_style_mappings b sm ∧
    apply_find_replace reSub b rs = apply_find_replace reSub b rs := by
  refine ⟨?_, rfl, rfl, rfl, rfl, rfl⟩
  rw [runBatch_eq_map reSub (docs1 ++ docs2) tpl_bytes cfg,
      runBatch_eq_map reSub docs1 tpl_bytes cfg,
      runBatch_eq_map reSub docs2 tpl_bytes cfg,
      List.map_append]

/-- C5: with no well-typed style_map and no well-typed find_replace in the
config, process_one returns exactly the bytes of the compose / page-setup /
header-footer chain, the latter two themselves skipped when their keys are
absent or not dictionaries. -/
theorem c5_optional_transforms (reSub : Str → Str → Str → Str) (name : Str)
    (data tpl_bytes : Blob) (cfg : Cfg)
    (hsm : cfg.style_map.isVal = false) (hfr : cfg.find_replace.isVal = false) :
    process_one reSub name data tpl_bytes cfg =
      (match compose_into_template data tpl_bytes with
       | Except.error e => Except.error e
       | Except.ok c0 =>
         match pageSetupStep cfg c0 with
         | Except.error e => Except.error e
         | Except.ok c1 => headerFooterStep cfg c1) := by
  cases h0 : compose_into_template data tpl_bytes with
  | error e => simp [process_one, h0]
  | ok c0 =>
      cases h1 : pageSetupStep cfg c0 with
      | error e => simp [process_one, h0, h1]
      | ok c1 =>
          cases h2 : headerFooterStep cfg c1 with
          | error e => simp [process_one, h0, h1, h2]
          | ok c2 =>
              simp [process_one, h0, h1, h2, styleMapStep_skip hsm,
                    findReplaceStep_skip hfr]

/-- Witness for C5 at a concrete document and a concrete config whose
style_map key is missing and whose find_replace key is not a list. -/
theorem c5_optional_transforms_witness :
    sampleCfgNoText.style_map.isVal = false ∧
    sampleCfgNoText.find_replace.isVal = false ∧
    process_one litSub "a.docx".data sampleData build_default_template sampleCfgNoText =
      Except.ok (doc_to_bytes (applyPageSetupDoc samplePS
        (composerAppend defaultTemplateDoc sampleDoc))) := by
  refine ⟨rfl, rfl, ?_⟩
  rw [c5_optional_transforms litSub "a.docx".data sampleData build_default_template
        sampleCfgNoText rfl rfl]
  rfl

/-- pipelineSteps always lists between one and five library calls. -/
theorem pipelineSteps_length_bounds (cfg : Cfg) :
    1 ≤ (pipelineSteps cfg).length ∧ (pipelineSteps cfg).length ≤ 5 := by
  rcases cfg with ⟨f1, f2, f3, f4⟩
  cases f1 <;> cases f2 <;> cases f3 <;> cases f4 <;>
    simp [pipelineSteps, stepTag, CfgField.isVal]

/-- A successful composition always yields saved document bytes. -/
theorem compose_ok_shape {data tpl_bytes c : Blob}
    (h : compose_into_template data tpl_bytes = Except.ok c) :
    ∃ d, c = doc_to_bytes d := by
  unfold compose_into_template at h
  cases h1 : loadDocx tpl_bytes with
  | error e => rw [h1] at h; simp at h
  | ok base =>
      rw [h1] at h
      cases h2 : loadDocx data with
      | error e => rw [h2] at h; simp at h
      | ok src =>
          rw [h2] at h
          simp at h
          exact ⟨composerAppend base src, h.symm⟩

/-- The guarded page-setup line maps saved bytes to saved bytes. -/
theorem pageSetupStep_bytes (cfg : Cfg) (d : Docx) :
    ∃ d2, pageSetupStep cfg (doc_to_bytes d) = Except.ok (doc_to_bytes d2) := by
  cases h : cfg.page_setup with
  | val ps =>
      exact ⟨applyPageSetupDoc ps d,
        by simp [pageSetupStep, h, apply_page_setup, loadDocx, doc_to_bytes]⟩
  | absent => exact ⟨d, by simp [pageSetupStep, h]⟩
  | wrongType => exact ⟨d, by simp [pageSetupStep, h]⟩

/-- The guarded header/footer line maps saved bytes to saved bytes. -/
theorem headerFooterStep_bytes (cfg : Cfg) (d : Docx) :
    ∃ d2, headerFooterStep cfg (doc_to_bytes d) = Except.ok (doc_to_bytes d2) := by
  cases h : cfg.header_footer with
  | val hf =>
      exact ⟨setHeaderFooterDoc hf d,
        by simp [headerFooterStep, h, set_header_footer, loadDocx, doc_to_bytes]⟩
  | absent => exact ⟨d, by simp [headerFooterStep, h]⟩
  | wrongType => exact ⟨d, by simp [headerFooterStep, h]⟩

/-- The guarded style-mapping line maps saved bytes to saved bytes. -/
theorem styleMapStep_bytes (cfg : Cfg) (d : Docx) :
    ∃ d2, styleMapStep cfg (doc_to_bytes d) = Except.ok (doc_to_bytes d2) := by
  cases h : cfg.style_map with
  | val m =>
      exact ⟨applyStyleMappingsDoc m d,
        by simp [styleMapStep, h, apply_style_mappings, loadDocx, doc_to_bytes]⟩
  | absent => exact ⟨d, by simp [styleMapStep, h]⟩
  | wrongType => exact ⟨d, by simp [styleMapStep, h]⟩

/-- C6, amended: for each document the pipeline calls into the document
library once per step actually performed: compose always, plus one call per
optional step whose config key is present with the right type — between one
and five calls, five only when all four optional steps are configured, and
never a fixed count of four across all configs.  The trace agrees with
process_one on the result. -/
theorem c6_library_call_count_amended (reSub : Str → Str → Str → Str) (name : Str)
    (data tpl_bytes : Blob) (cfg : Cfg) :
    (process_one_traced reSub data tpl_bytes cfg).1 =
        process_one reSub name data tpl_bytes cfg ∧
    ((process_one_traced reSub data tpl_bytes cfg).2 = pipelineSteps cfg ∨
     (process_one_traced reSub data tpl_bytes cfg).2 = [Step.compose]) ∧
    1 ≤ (pipelineSteps cfg).length ∧ (pipelineSteps cfg).length ≤ 5 := by
  refine ⟨?_, ?_, (pipelineSteps_length_bounds cfg).1, (pipelineSteps_length_bounds cfg).2⟩
  · cases h0 : compose_into_template data tpl_bytes with
    | error e => simp [process_one_traced, process_one, h0]
    | ok c0 =>
        obtain ⟨d0, rfl⟩ := compose_ok_shape h0
        obtain ⟨d1, h1⟩ := pageSetupStep_bytes cfg d0
        obtain ⟨d2, h2⟩ := headerFooterStep_bytes cfg d1
        obtain ⟨d3, h3⟩ := styleMapStep_bytes cfg d2
        simp [process_one_traced, process_one, h0, h1, h2, h3]
  · cases h0 : compose_into_template data tpl_bytes with
    | error e => exact Or.inr (by simp [process_one_traced, h0])
    | ok c0 =>
        obtain ⟨d0, rfl⟩ := compose_ok_shape h0
        obtain ⟨d1, h1⟩ := pageSetupStep_bytes cfg d0
        obtain ⟨d2, h2⟩ := headerFooterStep_bytes cfg d1
        obtain ⟨d3, h3⟩ := styleMapStep_bytes cfg d2
        exact Or.inl (by simp [process_one_traced, pipelineSteps, h0, h1, h2, h3])

/-- Counterexample to C6 as stated: with every optional step configured, the
pipeline makes five library calls, not four. -/
theorem c6_library_call_count_counterexample :
    (process_one_traced litSub sampleData build_default_template fullSampleCfg).2 =
      [Step.compose, Step.pageSetup, Step.headerFooter, Step.styleMap, Step.findReplace] ∧
    ¬ ((process_one_traced litSub sampleData build_default_template fullSampleCfg).2.length = 4) := by
  constructor
  · rfl
  · decide

/-- The loop body of apply_page_setup on one section, projected to the fields
C8 talks about: orientation and page dimensions. -/
theorem pageSetupSection_fields (cfg : PageSetupCfg) (s : DocSection) :
    (pageSetupSection cfg s).orientation =
      (if lowerStr (cfg.orientation.getD "portrait".data) = "landscape".data
       then Orient.landscape else Orient.portrait) ∧
    (pageSetupSection cfg s).page_width =
      (if lowerStr (cfg.orientation.getD "portrait".data) = "landscape".data
       then s.page_height else s.page_width) ∧
    (pageSetupSection cfg s).page_height =
      (if lowerStr (cfg.orientation.getD "portrait".data) = "landscape".data
       then s.page_width else s.page_height) := by
  by_cases ho : lowerStr (cfg.orientation.getD "portrait".data) = "landscape".data <;>
  cases ht : cfg.margins_mm.top <;> cases hb : cfg.margins_mm.bottom <;>
  cases hl : cfg.margins_mm.left <;> cases hr : cfg.margins_mm.right <;>
  simp [pageSetupSection, ho, ht, hb, hl, hr]

/-- C8, amended: apply_page_setup swaps every section's page width and height
exactly when the configured orientation lowercases to "landscape" (setting
landscape), and otherwise sets portrait and leaves the dimensions unchanged;
consequently applying it twice with the same config always restores every
section's original page dimensions. -/
theorem c8_landscape_swap_amended (cfg : PageSetupCfg) (d : Docx) :
    (applyPageSetupDoc cfg (applyPageSetupDoc cfg d)).sections.map
        (fun s => (s.page_width, s.page_height)) =
      d.sections.map (fun s => (s.page_width, s.page_height)) ∧
    (applyPageSetupDoc cfg d).sections.map
        (fun s => (s.orientation, s.page_width, s.page_height)) =
      d.sections.map (fun s =>
        if lowerStr (cfg.orientation.getD "portrait".data) = "landscape".data
        then (Orient.landscape, s.page_height, s.page_width)
        else (Orient.portrait, s.page_width, s.page_height)) := by
  constructor
  · simp only [applyPageSetupDoc, List.map_map]
    apply List.map_congr_left
    intro s _
    obtain ⟨h1, h2, h3⟩ := pageSetupSection_fields cfg (pageSetupSection cfg s)
    obtain ⟨g1, g2, g3⟩ := pageSetupSection_fields cfg s
    by_cases ho : lowerStr (cfg.orientation.getD "portrait".data) = "landscape".data <;>
      simp [Function.comp, h2, h3, g2, g3, ho]
  · simp only [applyPageSetupDoc, List.map_map]
    apply List.map_congr_left
    intro s _
    obtain ⟨g1, g2, g3⟩ := pageSetupSection_fields cfg s
    by_cases ho : lowerStr (cfg.orientation.getD "portrait".data) = "landscape".data <;>
      simp [Function.comp, g1, g2, g3, ho]

/-- Counterexample to C8 as stated: the orientation value "Landscape" is not
the string "landscape", yet the section is set to landscape with its
dimensions swapped rather than to portrait with its dimensions unchanged,
because the code lowercases the value first. -/
theorem c8_landscape_swap_counterexample :
    (applyPageSetupDoc capitalLandscapePS sampleDoc).sections.map
        (fun s => (s.orientation, s.page_width, s.page_height)) =
      [(Orient.landscape, 200, 100)] ∧
    ¬ ((applyPageSetupDoc capitalLandscapePS sampleDoc).sections.map
          (fun s => (s.orientation, s.page_width, s.page_height)) =
        [(Orient.portrait, 100, 200)]) := by
  constructor
  · rfl
  · decide

/-- Unfolding of the per-paragraph rule fold. -/
theorem replaceRules_cons (reSub : Str → Str → Str → Str) (r : Rule) (rs : List Rule)
    (p : Paragraph) :
    replaceRules reSub (r :: rs) p = replaceRules reSub rs (applyRule reSub p r) := rfl

/-- One rule either leaves a paragraph untouched or rebuilds its runs as one
plain run. -/
theorem applyRule_id_or_single (reSub : Str → Str → Str → Str) (p : Paragraph)
    (r : Rule) :
    applyRule reSub p r = p ∨
      ∃ t, (applyRule reSub p r).runs = [{ text := t, fmt := 0 }] := by
  unfold applyRule replace_in_paragraph
  cases hp : r.pattern with
  | none => exact Or.inl rfl
  | some pat =>
      by_cases hne : pat ≠ []
      · by_cases hch : reSub pat r.replace (pText p) ≠ pText p
        · exact Or.inr ⟨reSub pat r.replace (pText p), by simp [hne, hch]⟩
        · exact Or.inl (by simp [hne, hch])
      · exact Or.inl (by simp [hne])

/-- The whole rule list either leaves a paragraph untouched or rebuilds its
runs as one plain run. -/
theorem replaceRules_id_or_single (reSub : Str → Str → Str → Str)
    (rules : List Rule) (p : Paragraph) :
    replaceRules reSub rules p = p ∨
      ∃ t, (replaceRules reSub rules p).runs = [{ text := t, fmt := 0 }] := by
  induction rules generalizing p with
  | nil => exact Or.inl rfl
  | cons r rs ih =>
      rw [replaceRules_cons]
      rcases ih (applyRule reSub p r) with h2 | ⟨t2, ht2⟩
      · rw [h2]
        exact applyRule_id_or_single reSub p r
      · exact Or.inr ⟨t2, ht2⟩

/-- If no applicable rule's substitution changes the paragraph's joined run
text, the rule loop leaves the paragraph exactly as it was. -/
theorem replaceRules_frame (reSub : Str → Str → Str → Str) (rules : List Rule)
    (p : Paragraph)
    (h : ∀ r ∈ rules, ∀ pat, r.pattern = some pat → pat ≠ [] →
         reSub pat r.replace (pText p) = pText p) :
    replaceRules reSub rules p = p := by
  induction rules with
  | nil => rfl
  | cons r rs ih =>
      have hr : applyRule reSub p r = p := by
        unfold applyRule replace_in_paragraph
        cases hp : r.pattern with
        | none => rfl
        | some pat =>
            by_cases hne : pat ≠ []
            · have hsub := h r (List.mem_cons_self r rs) pat hp hne
              simp [hne, hsub]
            · simp [hne]
      rw [replaceRules_cons, hr]
      exact ih (fun r' hr' => h r' (List.mem_cons_of_mem r hr'))

/-- C9: in apply_find_replace every paragraph goes through the rule loop, a
paragraph whose joined run text no applicable rule's substitution changes is
left exactly as it was (runs and formatting included), and a changed paragraph
ends up with its runs replaced by a single plain run holding the new text. -/
theorem c9_find_replace_frame (reSub : Str → Str → Str → Str) (rules : List Rule)
    (d : Docx) (p : Paragraph) :
    (applyFindReplaceDoc reSub rules d).paragraphs =
        d.paragraphs.map (replaceRules reSub rules) ∧
    ((∀ r ∈ rules, ∀ pat, r.pattern = some pat → pat ≠ [] →
        reSub pat r.replace (pText p) = pText p) →
      replaceRules reSub rules p = p) ∧
    (replaceRules reSub rules p ≠ p →
      ∃ t, (replaceRules reSub rules p).runs = [{ text := t, fmt := 0 }]) := by
  refine ⟨rfl, replaceRules_frame reSub rules p, ?_⟩
  intro hne
  rcases replaceRules_id_or_single reSub rules p with h | h
  · exact absurd h hne
  · exact h

/-- Witness for C9: a concrete unchanged paragraph keeps its runs, a concrete
changed paragraph ends with a single plain run. -/
theorem c9_find_replace_frame_witness :
    replaceRules litSub sampleRules keepPara = keepPara ∧
    (∃ t, (replaceRules litSub sampleRules changePara).runs =
            [{ text := t, fmt := 0 }]) := by
  constructor
  · apply (c9_find_replace_frame litSub sampleRules sampleDoc keepPara).2.1
    intro r hr pat hp hne
    have hrr : r = { pattern := some "ab".data, replace := "cd".data } := by
      simpa [sampleRules] using hr
    subst hrr
    simp only at hp
    cases hp
    decide
  · exact (c9_find_replace_frame litSub sampleRules sampleDoc changePara).2.2 (by decide)

/-- Stripping a filename to its base name preserves a (case-insensitive)
".docx" suffix, because the suffix contains no slash. -/
theorem basename_keeps_docx {s : Str}
    (h : strEndsWith (lowerStr s) ".docx".data = true) :
    strEndsWith (lowerStr (baseName s)) ".docx".data = true := by
  have hsuf : List.IsSuffix ".docx".data (lowerStr s) := of_decide_eq_true h
  obtain ⟨t, ht⟩ := hsuf
  have hmap : s.map lowChar = t ++ ".docx".data := by
    simpa [lowerStr] using ht.symm
  obtain ⟨s1, s2, hs, h1, h2⟩ := List.map_eq_append_iff.mp hmap
  have hnos : ∀ c ∈ s2.reverse, (c != '/') = true := by
    intro c hc
    have hc2 : c ∈ s2 := List.mem_reverse.mp hc
    have hmem : lowChar c ∈ ".docx".data := by
      rw [← h2]
      exact List.mem_map_of_mem lowChar hc2
    by_contra hcon
    simp at hcon
    subst hcon
    exact absurd hmem (by decide)
  subst hs
  unfold baseName
  rw [List.reverse_append, List.takeWhile_append_of_pos hnos, List.reverse_append,
      List.reverse_reverse]
  apply decide_eq_true
  show List.IsSuffix ".docx".data
    (lowerStr ((List.takeWhile (fun c => c != '/') s1.reverse).reverse ++ s2))
  refine ⟨lowerStr (List.takeWhile (fun c => c != '/') s1.reverse).reverse, ?_⟩
  simp only [lowerStr, List.map_append]
  rw [h2]

/-- C10: every (filename, bytes) pair iter_input_docs returns has a filename
ending in ".docx" up to case: direct uploads are checked on their own name,
and zip members are checked on the member path before it is stripped to the
base name, which keeps the suffix; every other upload or member contributes
nothing. -/
theorem c10_only_docx_names (items : List Upload) (docs : List (Str × Blob))
    (h : iter_input_docs items = Except.ok docs) :
    ∀ nb ∈ docs, strEndsWith (lowerStr nb.1) ".docx".data = true := by
  induction items generalizing docs with
  | nil =>
      simp [iter_input_docs] at h
      intro nb hnb
      rw [h] at hnb
      simp at hnb
  | cons item rest ih =>
      simp only [iter_input_docs] at h
      by_cases hdx : strEndsWith (lowerStr item.name) ".docx".data = true
      · simp only [hdx, if_true] at h
        cases hrest : iter_input_docs rest with
        | error e => rw [hrest] at h; simp at h
        | ok r =>
            rw [hrest] at h
            simp at h
            intro nb hnb
            rw [← h] at hnb
            rcases List.mem_cons.mp hnb with heq | hmem
            · rw [heq]
              exact hdx
            · exact ih r hrest nb hmem
      · simp only [hdx, if_false, Bool.false_eq_true] at h
        by_cases hzip : strEndsWith (lowerStr item.name) ".zip".data = true
        · simp only [hzip, if_true] at h
          cases hdata : item.data with
          | docxBlob o => rw [hdata] at h; simp at h
          | zipBlob members =>
              rw [hdata] at h
              cases hrest : iter_input_docs rest with
              | error e => rw [hrest] at h; simp at h
              | ok r =>
                  rw [hrest] at h
                  simp at h
                  intro nb hnb
                  rw [← h] at hnb
                  rcases List.mem_append.mp hnb with hmem | hmem
                  · obtain ⟨m, hm, hf⟩ := List.mem_filterMap.mp hmem
                    by_cases hcond :
                        isDirName m.1 = false ∧ strEndsWith (lowerStr m.1) ".docx".data = true
                    · rw [if_pos hcond] at hf
                      have hdocx : strEndsWith (lowerStr m.1) ".docx".data = true := hcond.2
                      have hkeep := basename_keeps_docx hdocx
                      have hnb2 : (baseName m.1, m.2) = nb := Option.some.inj hf
                      rw [← hnb2]
                      exact hkeep
                    · rw [if_neg hcond] at hf
                      exact absurd hf (by simp)
                  · exact ih r hrest nb hmem
        · simp only [hzip, if_false, Bool.false_eq_true] at h
          exact ih docs h

/-- Witness for C10 at a concrete upload list holding an uppercase .docx, a
zip with a directory entry, a nested mixed-case .docx and a stray text file,
and one ignored upload. -/
theorem c10_only_docx_names_witness :
    iter_input_docs sampleItems =
      Except.ok [("A.DOCX".data, sampleData), ("Report.Docx".data, sampleData)] ∧
    strEndsWith (lowerStr "Report.Docx".data) ".docx".data = true := by
  refine ⟨rfl, ?_⟩
  exact c10_only_docx_names sampleItems
    [("A.DOCX".data, sampleData), ("Report.Docx".data, sampleData)] rfl
    ("Report.Docx".data, sampleData)
    (List.mem_cons_of_mem _ (List.mem_cons_self _ _))

/-- C3: documents are processed and written in upload order.  Expanding the
uploads is, item by item, prepending that item's contribution (itself for a
.docx, its .docx members in archive order for a .zip, nothing otherwise) to
the expansion of the remaining items; and the i-th archive entry is exactly
the processed i-th element of the expanded list. -/
theorem c3_upload_order (reSub : Str → Str → Str → Str) (tpl_bytes : Blob)
    (cfg : Cfg) :
    (∀ (u : Upload) (rest : List Upload),
        iter_input_docs (u :: rest) =
          Except.bind (expandOne u) (fun l =>
            Except.map (fun r => l ++ r) (iter_input_docs rest))) ∧
    (∀ (docs : List (Str × Blob)) (i : Nat),
        (runBatch reSub docs tpl_bytes cfg)[i]? =
          Option.map (outEntryFor reSub tpl_bytes cfg) docs[i]?) := by
  constructor
  · intro u rest
    simp only [iter_input_docs, expandOne]
    by_cases hdx : strEndsWith (lowerStr u.name) ".docx".data = true
    · simp only [hdx, if_true]
      cases hrest : iter_input_docs rest <;>
        simp [Except.bind, Except.map, hrest]
    · simp only [hdx, if_false, Bool.false_eq_true]
      by_cases hzip : strEndsWith (lowerStr u.name) ".zip".data = true
      · simp only [hzip, if_true]
        cases hdata : u.data with
        | docxBlob o => simp [Except.bind]
        | zipBlob members =>
            cases hrest : iter_input_docs rest <;>
              simp [Except.bind, Except.map, hrest]
      · simp only [hzip, if_false, Bool.false_eq_true]
        cases hrest : iter_input_docs rest <;>
          simp [Except.bind, Except.map, hrest]
  · intro docs i
    rw [runBatch_eq_map reSub docs tpl_bytes cfg]
    simp

end DocxRefit
